import Mathlib

/-!
Verification of the Beacon trading-pipeline components against their sources.

Each section shallowly embeds one component of the repository:
ring buffer, ITCH packet parsing, matching-engine protocol detection,
playback replayer dispatch, rules engine, playback state, pinned threads,
and the latency tracker.  Machine integers are modelled as Nat with
explicit wrap-around where the code relies on it; fallible paths return
Option values; the nondeterminism of std::sort is modelled as a relation.
-/

namespace Beacon

/- ===================================================================
   SpScRingBuffer  (src/include/hft/ringbuffer/spsc_ringbuffer.h)

   The buffer storage is a list of length Capacity; head, tail, dropped
   and highWaterMark mirror the atomic fields.  The claims under check
   are sequential (a trace of operations), so the relaxed/acquire/release
   orderings collapse to ordinary reads and writes.
   =================================================================== -/

structure SpScRingBuffer (T : Type) where
  buffer : List T
  head : Nat
  tail : Nat
  dropped : Nat
  highWaterMark : Nat
deriving DecidableEq

/-- Source: increment(idx) = (idx + 1) % Capacity. -/
def increment (cap idx : Nat) : Nat := (idx + 1) % cap

/-- Source: updateHighWaterMark; the compare-exchange loop, run by the single
producer, amounts to highWaterMark := max highWaterMark used with
used = (head + Capacity - tail) % Capacity. -/
def updateHighWaterMark {T : Type} (cap : Nat) (s : SpScRingBuffer T)
    (head : Nat) : SpScRingBuffer T :=
  { s with highWaterMark := max s.highWaterMark ((head + cap - s.tail) % cap) }

/-- Source: SpScRingBuffer::tryPush.  Returns the new state and the bool result;
on a full buffer (next == tail) it increments dropped and returns false,
otherwise it stores the item at head, publishes head := next and updates the
high-water mark. -/
def tryPush {T : Type} (cap : Nat) (s : SpScRingBuffer T) (item : T) :
    SpScRingBuffer T × Bool :=
  let next := increment cap s.head
  if next = s.tail then
    ({ s with dropped := s.dropped + 1 }, false)
  else
    (updateHighWaterMark cap
      { s with buffer := s.buffer.set s.head item, head := next } next, true)

/-- Source: SpScRingBuffer::tryPop.  Returns none when empty (tail == head),
otherwise returns the element at tail and publishes tail := increment tail. -/
def tryPop {T : Type} (cap : Nat) (s : SpScRingBuffer T) :
    SpScRingBuffer T × Option T :=
  if s.tail = s.head then (s, none)
  else ({ s with tail := increment cap s.tail }, s.buffer.get? s.tail)

/-- One operation of a producer/consumer trace on the ring buffer. -/
inductive RingOp (T : Type) where
  | push (item : T)
  | pop
deriving DecidableEq

/-- Runs a trace of tryPush/tryPop operations; the second component counts the
tryPush calls that returned false. -/
def runOps {T : Type} (cap : Nat) : List (RingOp T) → SpScRingBuffer T →
    SpScRingBuffer T × Nat
  | [], s => (s, 0)
  | RingOp.push item :: rest, s =>
      let r := tryPush cap s item
      let r2 := runOps cap rest r.1
      (r2.1, (if r.2 then 0 else 1) + r2.2)
  | RingOp.pop :: rest, s => runOps cap rest (tryPop cap s).1

theorem tryPush_dropped {T : Type} (cap : Nat) (s : SpScRingBuffer T)
    (item : T) :
    (tryPush cap s item).1.dropped =
      s.dropped + (if (tryPush cap s item).2 then 0 else 1) := by
  by_cases h : increment cap s.head = s.tail <;>
    simp [tryPush, updateHighWaterMark, h]

theorem tryPop_dropped {T : Type} (cap : Nat) (s : SpScRingBuffer T) :
    (tryPop cap s).1.dropped = s.dropped := by
  by_cases h : s.tail = s.head <;> simp [tryPop, h]

theorem runOps_dropped {T : Type} (cap : Nat) (ops : List (RingOp T))
    (s : SpScRingBuffer T) :
    (runOps cap ops s).1.dropped = s.dropped + (runOps cap ops s).2 := by
  induction ops generalizing s with
  | nil => simp [runOps]
  | cons op rest ih =>
      cases op with
      | push item =>
          have h1 := tryPush_dropped cap s item
          simp only [runOps]
          rw [ih]
          rw [h1]
          ring
      | pop =>
          simp only [runOps]
          rw [ih, tryPop_dropped]

theorem runOps_append {T : Type} (cap : Nat) (l1 l2 : List (RingOp T))
    (s : SpScRingBuffer T) :
    (runOps cap (l1 ++ l2) s).1 = (runOps cap l2 (runOps cap l1 s).1).1 := by
  induction l1 generalizing s with
  | nil => simp [runOps]
  | cons op rest ih =>
      cases op with
      | push item => simp only [List.cons_append, runOps]; exact ih _
      | pop => simp only [List.cons_append, runOps]; exact ih _

/-- C1: a tryPush on a full buffer returns false and increments dropped by
exactly one; a tryPush on a non-full buffer stores the item at head and
returns true without touching dropped; over any trace of tryPush/tryPop
operations, dropped equals its initial value plus exactly the number of
tryPush calls that returned false, and is therefore non-decreasing along
every prefix of the trace. -/
theorem spsc_dropped_spec {T : Type} (cap : Nat) (s : SpScRingBuffer T)
    (item : T) :
    (increment cap s.head = s.tail →
      tryPush cap s item = ({ s with dropped := s.dropped + 1 }, false))
    ∧ (increment cap s.head ≠ s.tail →
      (tryPush cap s item).2 = true ∧
      (tryPush cap s item).1.dropped = s.dropped ∧
      (tryPush cap s item).1.buffer = s.buffer.set s.head item)
    ∧ (∀ ops : List (RingOp T),
        (runOps cap ops s).1.dropped = s.dropped + (runOps cap ops s).2)
    ∧ (∀ l1 l2 : List (RingOp T),
        (runOps cap l1 s).1.dropped ≤ (runOps cap (l1 ++ l2) s).1.dropped) := by
  refine ⟨?_, ?_, ?_, ?_⟩
  · intro h
    simp [tryPush, h]
  · intro h
    simp [tryPush, updateHighWaterMark, h]
  · intro ops
    exact runOps_dropped cap ops s
  · intro l1 l2
    rw [runOps_append]
    rw [runOps_dropped cap l2 (runOps cap l1 s).1]
    exact Nat.le_add_right _ _

/-- Witness for spsc_dropped_spec: a concrete full buffer (capacity 2,
head = 1, tail = 0) rejects a push and counts the drop, and a concrete
non-full buffer (head = tail = 0) accepts a push without touching dropped. -/
theorem spsc_dropped_spec_witness :
    (increment 2 1 = 0 ∧
      tryPush 2 (SpScRingBuffer.mk [10, 20] 1 0 0 0) 7 =
        (SpScRingBuffer.mk [10, 20] 1 0 1 0, false))
    ∧ (increment 2 0 ≠ 0 ∧
      (tryPush 2 (SpScRingBuffer.mk [10, 20] 0 0 0 0) 7).2 = true) := by
  refine ⟨⟨by decide, ?_⟩, ⟨by decide, ?_⟩⟩
  · exact (spsc_dropped_spec 2 (SpScRingBuffer.mk [10, 20] 1 0 0 0) 7).1
      (by decide)
  · exact ((spsc_dropped_spec 2 (SpScRingBuffer.mk [10, 20] 0 0 0 0) 7).2.1
      (by decide)).1

/- ===================================================================
   ITCH packet parsing
   (src/include/nsdq/market_data/itch/v5/itch_parser.h and
    src/src/libs/common/nsdq/market_data/itch/v5/itch_message_types.h)

   A packet is a list of bytes (Nat values).  The memcpy decode of a
   record into its typed C++ struct is modelled as the pair of the
   message type and the raw record bytes; the claim under check concerns
   which records are enqueued and which error is signalled, not the
   field values.  The thrown std::runtime_error values are modelled as
   the PacketError result.
   =================================================================== -/

inductive MessageType where
  | AddOrder
  | Trade
  | OrderExecuted
  | OrderCancel
  | OrderDelete
  | ReplaceOrder
  | MarketDepth
deriving DecidableEq

/-- Tag byte of each message type: 'A', 'P', 'E', 'X', 'D', 'U', 'R'. -/
def tagOf : MessageType → Nat
  | MessageType.AddOrder => 65
  | MessageType.Trade => 80
  | MessageType.OrderExecuted => 69
  | MessageType.OrderCancel => 88
  | MessageType.OrderDelete => 68
  | MessageType.ReplaceOrder => 85
  | MessageType.MarketDepth => 82

/-- The switch on static_cast of the tag byte: a known tag selects its
message type, anything else falls to the default (unknown type). -/
def messageTypeOfTag (b : Nat) : Option MessageType :=
  if b = 65 then some MessageType.AddOrder
  else if b = 80 then some MessageType.Trade
  else if b = 69 then some MessageType.OrderExecuted
  else if b = 88 then some MessageType.OrderCancel
  else if b = 68 then some MessageType.OrderDelete
  else if b = 85 then some MessageType.ReplaceOrder
  else if b = 82 then some MessageType.MarketDepth
  else none

/-- The sizeof of each message struct of itch_message_types.h under the
usual x86-64 layout (8-byte alignment of the uint64 fields, hence the
padding that rounds AddOrder/Trade up to 40 and OrderDelete up to 16). -/
def msgSize : MessageType → Nat
  | MessageType.AddOrder => 40
  | MessageType.Trade => 40
  | MessageType.OrderExecuted => 24
  | MessageType.OrderCancel => 16
  | MessageType.OrderDelete => 16
  | MessageType.ReplaceOrder => 32
  | MessageType.MarketDepth => 32

/-- A typed variant as pushed onto the ring: the message type together
with the memcpy-decoded record bytes. -/
structure ItchMessageVariant where
  type : MessageType
  bytes : List Nat
deriving DecidableEq

inductive PacketError where
  | Truncated
  | UnknownType
deriving DecidableEq

theorem msgSize_pos (t : MessageType) : 0 < msgSize t := by
  cases t <;> decide

/-- Source: ItchParser::parsePacket.  Walks the byte cursor, reads the tag,
checks ensureBytes(sizeof), tryPushes the decoded record (the bool result is
ignored) and advances by sizeof; an unknown tag or a truncated record aborts
the walk with the corresponding error, keeping the pushes already made. -/
def parsePacketGo (cap : Nat) :
    List Nat → SpScRingBuffer ItchMessageVariant →
    SpScRingBuffer ItchMessageVariant × Option PacketError
  | [], ring => (ring, none)
  | b :: rest, ring =>
      match messageTypeOfTag b with
      | none => (ring, some PacketError.UnknownType)
      | some t =>
          if (b :: rest).length < msgSize t then (ring, some PacketError.Truncated)
          else
            parsePacketGo cap ((b :: rest).drop (msgSize t))
              (tryPush cap ring ⟨t, (b :: rest).take (msgSize t)⟩).1
termination_by data => data.length
decreasing_by
  simp only [List.length_drop]
  exact Nat.sub_lt (Nat.succ_pos _) (msgSize_pos t)

def parsePacket (cap : Nat) (ring : SpScRingBuffer ItchMessageVariant)
    (data : List Nat) : SpScRingBuffer ItchMessageVariant × Option PacketError :=
  parsePacketGo cap data ring

/-- A well-formed wire record for a given message type: exactly sizeof
bytes, led by the tag byte of that type. -/
def WFRecord (r : MessageType × List Nat) : Prop :=
  r.2.length = msgSize r.1 ∧ r.2.headD 0 = tagOf r.1

instance (r : MessageType × List Nat) : Decidable (WFRecord r) := by
  unfold WFRecord; infer_instance

/-- The effect on the sink ring of enqueueing a list of records in order
(each through tryPush, so a full ring rejects the record). -/
def pushAll (cap : Nat) (ring : SpScRingBuffer ItchMessageVariant)
    (records : List (MessageType × List Nat)) :
    SpScRingBuffer ItchMessageVariant :=
  records.foldl (fun rg r => (tryPush cap rg ⟨r.1, r.2⟩).1) ring

theorem messageTypeOfTag_tagOf (t : MessageType) :
    messageTypeOfTag (tagOf t) = some t := by
  cases t <;> decide

theorem parsePacketGo_cons_known (cap : Nat) (b : Nat) (rest : List Nat)
    (ring : SpScRingBuffer ItchMessageVariant) (t : MessageType)
    (htag : messageTypeOfTag b = some t) :
    parsePacketGo cap (b :: rest) ring =
      if (b :: rest).length < msgSize t then (ring, some PacketError.Truncated)
      else
        parsePacketGo cap ((b :: rest).drop (msgSize t))
          (tryPush cap ring ⟨t, (b :: rest).take (msgSize t)⟩).1 := by
  rw [parsePacketGo, htag]

theorem parsePacketGo_cons_unknown (cap : Nat) (b : Nat) (rest : List Nat)
    (ring : SpScRingBuffer ItchMessageVariant)
    (htag : messageTypeOfTag b = none) :
    parsePacketGo cap (b :: rest) ring = (ring, some PacketError.UnknownType) := by
  rw [parsePacketGo, htag]

theorem parsePacketGo_concat (cap : Nat)
    (records : List (MessageType × List Nat)) (rest : List Nat)
    (ring : SpScRingBuffer ItchMessageVariant)
    (hwf : ∀ r ∈ records, WFRecord r) :
    parsePacketGo cap ((records.map Prod.snd).flatten ++ rest) ring =
      parsePacketGo cap rest (pushAll cap ring records) := by
  induction records generalizing ring with
  | nil => simp [pushAll]
  | cons r rs ih =>
      obtain ⟨hlen, hhead⟩ := hwf r (List.mem_cons_self r rs)
      have hne : r.2 ≠ [] := by
        intro h
        rw [h] at hlen
        exact absurd hlen.symm (Nat.ne_of_gt (msgSize_pos r.1))
      obtain ⟨b, pr, hb⟩ := List.exists_cons_of_ne_nil hne
      have hbtag : messageTypeOfTag b = some r.1 := by
        have : b = tagOf r.1 := by
          rw [hb] at hhead
          simpa using hhead
        rw [this]
        exact messageTypeOfTag_tagOf r.1
      have hflat : ((r :: rs).map Prod.snd).flatten ++ rest =
          b :: (pr ++ (((rs.map Prod.snd).flatten) ++ rest)) := by
        simp [hb]
      have hlen2 : pr.length + 1 = msgSize r.1 := by
        have : (b :: pr).length = msgSize r.1 := by rw [← hb]; exact hlen
        simpa using this
      rw [hflat, parsePacketGo_cons_known cap b _ ring r.1 hbtag]
      have hlenge : ¬ (b :: (pr ++ ((rs.map Prod.snd).flatten ++ rest))).length
          < msgSize r.1 := by
        simp only [List.length_cons, List.length_append]
        omega
      rw [if_neg hlenge]
      have hlen3 : (b :: pr).length = msgSize r.1 := by simpa using hlen2
      have htake : (b :: (pr ++ ((rs.map Prod.snd).flatten ++ rest))).take
          (msgSize r.1) = b :: pr :=
        List.take_left' hlen3
      have hdrop : (b :: (pr ++ ((rs.map Prod.snd).flatten ++ rest))).drop
          (msgSize r.1) = (rs.map Prod.snd).flatten ++ rest :=
        List.drop_left' hlen3
      rw [htake, hdrop]
      rw [ih _ (fun x hx => hwf x (List.mem_cons_of_mem r hx))]
      have hpush : pushAll cap ring (r :: rs) =
          pushAll cap (tryPush cap ring ⟨r.1, b :: pr⟩).1 rs := by
        simp [pushAll, hb]
      rw [hpush]

/-- C2: parsing a packet that is a concatenation of well-formed records
enqueues exactly those records in order (each through tryPush, so a full
ring rejects it), consumes the whole buffer and reports no error; with a
truncated trailing record (a known tag but fewer than sizeof bytes) it
enqueues exactly the complete preceding records, reports Truncated, and
the pushes already made are kept; with an unknown tag byte it reports
UnknownType. -/
theorem parsePacket_spec (cap : Nat)
    (ring : SpScRingBuffer ItchMessageVariant)
    (records : List (MessageType × List Nat))
    (hwf : ∀ r ∈ records, WFRecord r) :
    (parsePacket cap ring ((records.map Prod.snd).flatten) =
        (pushAll cap ring records, none))
    ∧ (∀ t : MessageType, ∀ tail : List Nat,
        tail.headD 0 = tagOf t → tail ≠ [] → tail.length < msgSize t →
        parsePacket cap ring (((records.map Prod.snd).flatten) ++ tail) =
          (pushAll cap ring records, some PacketError.Truncated))
    ∧ (∀ b : Nat, ∀ tail : List Nat, messageTypeOfTag b = none →
        parsePacket cap ring (((records.map Prod.snd).flatten) ++ (b :: tail)) =
          (pushAll cap ring records, some PacketError.UnknownType)) := by
  refine ⟨?_, ?_, ?_⟩
  · have := parsePacketGo_concat cap records [] ring hwf
    simpa [parsePacket, parsePacketGo] using this
  · intro t tail hhead hne hlt
    obtain ⟨b, tr, hb⟩ := List.exists_cons_of_ne_nil hne
    have hbtag : messageTypeOfTag b = some t := by
      have : b = tagOf t := by
        rw [hb] at hhead
        simpa using hhead
      rw [this]
      exact messageTypeOfTag_tagOf t
    unfold parsePacket
    rw [parsePacketGo_concat cap records tail ring hwf, hb,
      parsePacketGo_cons_known cap b tr _ t hbtag]
    rw [if_pos (by rw [← hb]; exact hlt)]
  · intro b tail hnone
    unfold parsePacket
    rw [parsePacketGo_concat cap records (b :: tail) ring hwf,
      parsePacketGo_cons_unknown cap b tail _ hnone]

/-- Witness for parsePacket_spec: one complete OrderDelete record followed
by a 3-byte truncated record yields exactly one enqueued variant and the
Truncated error. -/
theorem parsePacket_spec_witness :
    parsePacket 4 (SpScRingBuffer.mk [] 0 0 0 0)
        ((([(MessageType.OrderDelete, 68 :: List.replicate 15 0)].map
          Prod.snd).flatten) ++ [68, 0, 0]) =
      (pushAll 4 (SpScRingBuffer.mk [] 0 0 0 0)
        [(MessageType.OrderDelete, 68 :: List.replicate 15 0)],
        some PacketError.Truncated) :=
  (parsePacket_spec 4 (SpScRingBuffer.mk [] 0 0 0 0)
      [(MessageType.OrderDelete, 68 :: List.replicate 15 0)]
      (by decide)).2.1
    MessageType.OrderDelete [68, 0, 0] (by decide) (by decide) (by decide)

/- ===================================================================
   Matching-engine protocol detection and normalization
   (src/src/apps/exchange_matching_engine/main.cpp, decodeOrder, and
    src/src/apps/exchange_matching_engine/protocol_adapters.h)

   A 64-byte order-entry buffer is modelled as a function from byte
   index to byte value.  The three wire structs share the layout
   clientOrderId u64 at 0, symbol[8] at 8, shares/quantity u32 at 16,
   price u32 at 20 and side at 24; OUCH then has timeInForce at 25,
   orderType at 26 and capacity at 27, while Pillar and CME have
   orderType at 25 and tif at 26.  Multi-byte fields are read
   little-endian as the code memcpy-decodes native-endian structs.
   =================================================================== -/

def Bytes : Type := Nat → Nat

/-- Little-endian read of n bytes starting at off. -/
def readLE (B : Bytes) (off n : Nat) : Nat :=
  (List.range n).foldr (fun k acc => acc * 256 + B (off + k)) 0

/-- The 8 symbol bytes at offsets 8..15 of every 64-byte order message. -/
def symbolBytes (B : Bytes) : List Nat :=
  (List.range 8).map (fun k => B (8 + k))

/-- Source: struct NormalizedOrder of protocol_adapters.h. -/
structure NormalizedOrder where
  orderId : Nat
  symbol : List Nat
  quantity : Nat
  price : Nat
  side : Nat
  timeInForce : Nat
  orderType : Nat
  capacity : Nat
  protocol : Nat
deriving DecidableEq

/-- Source: ProtocolAdapter::decodeOuch; protocol tag 1, fields copied from
the OuchEnterOrderMessage layout. -/
def decodeOuch (B : Bytes) : NormalizedOrder :=
  { orderId := readLE B 0 8
    symbol := symbolBytes B
    quantity := readLE B 16 4
    price := readLE B 20 4
    side := B 24
    timeInForce := B 25
    orderType := B 26
    capacity := B 27
    protocol := 1 }

/-- Source: ProtocolAdapter::decodePillar; protocol tag 2, capacity
defaulted to 'A' (65), tif read from the Pillar layout (offset 26). -/
def decodePillar (B : Bytes) : NormalizedOrder :=
  { orderId := readLE B 0 8
    symbol := symbolBytes B
    quantity := readLE B 16 4
    price := readLE B 20 4
    side := B 24
    timeInForce := B 26
    orderType := B 25
    capacity := 65
    protocol := 2 }

/-- Source: ProtocolAdapter::decodeCME; protocol tag 3, capacity defaulted
to 'P' (80), tif read from the CME layout (offset 26). -/
def decodeCME (B : Bytes) : NormalizedOrder :=
  { orderId := readLE B 0 8
    symbol := symbolBytes B
    quantity := readLE B 16 4
    price := readLE B 20 4
    side := B 24
    timeInForce := B 26
    orderType := B 25
    capacity := 80
    protocol := 3 }

inductive ProtocolMode where
  | auto
  | ouch
  | pillar
  | cme
deriving DecidableEq

/-- Source: MatchingEngine::decodeOrder.  In auto mode the heuristic reads
buffer[22] ('O' = 79 selects OUCH; 'L' = 76 or 'M' = 77 inspects the symbol
bytes buffer[10] and buffer[11]: month code 'F'..'Z' (70..90) plus year
digit '0'..'9' (48..57) selects CME, anything else Pillar; every other
buffer[22] value defaults to Pillar).  The explicit modes dispatch
directly; the final fallback of the C++ else-chain is unreachable once the
mode is an enum. -/
def decodeOrder (mode : ProtocolMode) (B : Bytes) : NormalizedOrder :=
  match mode with
  | ProtocolMode.auto =>
      if B 22 = 79 then decodeOuch B
      else if B 22 = 76 ∨ B 22 = 77 then
        if 70 ≤ B 10 ∧ B 10 ≤ 90 ∧ 48 ≤ B 11 ∧ B 11 ≤ 57 then decodeCME B
        else decodePillar B
      else decodePillar B
  | ProtocolMode.ouch => decodeOuch B
  | ProtocolMode.pillar => decodePillar B
  | ProtocolMode.cme => decodeCME B

/-- C3: in auto mode the normalized order carries protocol tag 1 (OUCH)
when byte 22 is 'O'; tag 3 (CME) when byte 22 is 'L' or 'M' and symbol
byte 2 (buffer byte 10) is in 'F'..'Z' while symbol byte 3 (buffer byte
11) is in '0'..'9'; and tag 2 (Pillar) in every other case, including
when byte 22 is none of 'O', 'L', 'M'. -/
theorem decodeOrder_auto_protocol (B : Bytes) :
    (B 22 = 79 → (decodeOrder ProtocolMode.auto B).protocol = 1)
    ∧ ((B 22 = 76 ∨ B 22 = 77) →
        (70 ≤ B 10 ∧ B 10 ≤ 90 ∧ 48 ≤ B 11 ∧ B 11 ≤ 57) →
        (decodeOrder ProtocolMode.auto B).protocol = 3)
    ∧ ((B 22 = 76 ∨ B 22 = 77) →
        ¬ (70 ≤ B 10 ∧ B 10 ≤ 90 ∧ 48 ≤ B 11 ∧ B 11 ≤ 57) →
        (decodeOrder ProtocolMode.auto B).protocol = 2)
    ∧ (B 22 ≠ 79 → B 22 ≠ 76 → B 22 ≠ 77 →
        (decodeOrder ProtocolMode.auto B).protocol = 2) := by
  refine ⟨?_, ?_, ?_, ?_⟩
  · intro h
    simp [decodeOrder, h, decodeOuch]
  · intro h hsym
    have h79 : ¬ B 22 = 79 := by rcases h with h | h <;> omega
    simp only [decodeOrder]
    rw [if_neg h79, if_pos h, if_pos hsym]
    rfl
  · intro h hsym
    have h79 : ¬ B 22 = 79 := by rcases h with h | h <;> omega
    simp only [decodeOrder]
    rw [if_neg h79, if_pos h, if_neg hsym]
    rfl
  · intro h79 h76 h77
    simp only [decodeOrder]
    rw [if_neg h79, if_neg (by simp [h76, h77])]
    rfl

/-- Witness for decodeOrder_auto_protocol: concrete buffers with byte 22
set to 'O', to 'L' with a futures symbol, and to 'M' with a stock
symbol, hit the OUCH, CME and Pillar branches respectively. -/
theorem decodeOrder_auto_protocol_witness :
    (decodeOrder ProtocolMode.auto
        (fun i => if i = 22 then 79 else 32)).protocol = 1
    ∧ (decodeOrder ProtocolMode.auto
        (fun i => if i = 22 then 76 else if i = 10 then 90 else
          if i = 11 then 52 else 32)).protocol = 3
    ∧ (decodeOrder ProtocolMode.auto
        (fun i => if i = 22 then 77 else 32)).protocol = 2 :=
  ⟨(decodeOrder_auto_protocol _).1 (by decide),
   (decodeOrder_auto_protocol _).2.1 (by decide) (by decide),
   (decodeOrder_auto_protocol _).2.2.1 (by decide) (by decide)⟩

/- ===================================================================
   PlaybackState  (src/src/apps/playback/playback_state.h)

   Timestamps are steady-clock instants in nanoseconds, modelled as Nat.
   recordSent appends now to the deque and then pops entries from the
   front while front < now - 1 s; no other member prunes the window.
   =================================================================== -/

/-- One second of the steady clock, in nanoseconds. -/
def SEC : Nat := 1000000000

structure PlaybackState where
  startTime : Nat
  messagesSent : Nat
  totalMessagesSent : Nat
  messagesDropped : Nat
  messagesQueued : Nat
  recentSendTimes : List Nat
deriving DecidableEq

/-- A freshly constructed PlaybackState: counters zero, empty window. -/
def initPlaybackState (start : Nat) : PlaybackState :=
  ⟨start, 0, 0, 0, 0, []⟩

/-- Source: PlaybackState::recordSent.  Increments both sent counters,
appends now, then pops entries from the front while front < now - 1 s. -/
def recordSent (now : Nat) (s : PlaybackState) : PlaybackState :=
  { s with
    messagesSent := s.messagesSent + 1
    totalMessagesSent := s.totalMessagesSent + 1
    recentSendTimes :=
      (s.recentSendTimes ++ [now]).dropWhile (fun t => t < now - SEC) }

/-- Source: PlaybackState::recordDropped. -/
def recordDropped (s : PlaybackState) : PlaybackState :=
  { s with messagesDropped := s.messagesDropped + 1 }

/-- Source: PlaybackState::recordQueued. -/
def recordQueued (s : PlaybackState) : PlaybackState :=
  { s with messagesQueued := s.messagesQueued + 1 }

/-- Source: PlaybackState::getCurrentRate = size of the window. -/
def getCurrentRate (s : PlaybackState) : Nat :=
  s.recentSendTimes.length

/-- A playback run viewed through its sequence of recordSent calls, each
tagged with the steady-clock instant at which it happened. -/
def runSends (times : List Nat) (s : PlaybackState) : PlaybackState :=
  times.foldl (fun st t => recordSent t st) s

theorem dropWhile_lt_eq_filter (c : Nat) (l : List Nat)
    (h : l.Sorted (· ≤ ·)) :
    l.dropWhile (fun t => t < c) = l.filter (fun t => c ≤ t) := by
  induction l with
  | nil => rfl
  | cons a l ih =>
      rw [List.sorted_cons] at h
      by_cases hac : a < c
      · have hfa : ¬ c ≤ a := not_le_of_lt hac
        rw [List.dropWhile_cons, List.filter_cons,
          if_pos (decide_eq_true hac), if_neg (by simpa using hfa)]
        exact ih h.2
      · have hca : c ≤ a := le_of_not_lt hac
        rw [List.dropWhile_cons, List.filter_cons,
          if_neg (by simpa using hac), if_pos (decide_eq_true hca)]
        rw [List.filter_eq_self.mpr]
        intro x hx
        exact decide_eq_true (le_trans hca (h.1 x hx))

theorem mem_of_getLastQ {α : Type} : ∀ (l : List α) (a : α),
    l.getLast? = some a → a ∈ l := by
  intro l
  induction l with
  | nil => intro a h; simp at h
  | cons x xs ih =>
      intro a h
      cases xs with
      | nil =>
          simp [List.getLast?] at h
          simp [h]
      | cons y ys =>
          rw [List.getLast?_cons_cons] at h
          exact List.mem_cons_of_mem x (ih a h)

theorem runSends_window (times : List Nat) (s : PlaybackState)
    (hs : s.recentSendTimes.Sorted (· ≤ ·))
    (hb : ∀ x ∈ s.recentSendTimes, ∀ t ∈ times, x ≤ t)
    (hsort : times.Sorted (· ≤ ·)) (last : Nat)
    (hlast : times.getLast? = some last) :
    (runSends times s).recentSendTimes =
      (s.recentSendTimes ++ times).filter (fun t => last - SEC ≤ t) := by
  induction times generalizing s with
  | nil => simp at hlast
  | cons t0 rest ih =>
      have hsort2 := hsort
      rw [List.sorted_cons] at hsort2
      have hwsorted : (s.recentSendTimes ++ [t0]).Sorted (· ≤ ·) :=
        List.pairwise_append.mpr ⟨hs, List.sorted_singleton t0, by
          intro x hx y hy
          rw [List.mem_singleton] at hy
          rw [hy]
          exact hb x hx t0 (List.mem_cons_self t0 rest)⟩
      have hstep : (recordSent t0 s).recentSendTimes =
          (s.recentSendTimes ++ [t0]).filter (fun t => t0 - SEC ≤ t) := by
        simp only [recordSent]
        exact dropWhile_lt_eq_filter (t0 - SEC) _ hwsorted
      cases rest with
      | nil =>
          have hl : t0 = last := by
            simpa [List.getLast?] using hlast
          subst hl
          simpa [runSends] using hstep
      | cons t1 rest2 =>
          rw [List.getLast?_cons_cons] at hlast
          have hrun : runSends (t0 :: t1 :: rest2) s =
              runSends (t1 :: rest2) (recordSent t0 s) := by
            simp [runSends]
          rw [hrun]
          have ht0last : t0 ≤ last :=
            hsort2.1 last (mem_of_getLastQ _ _ hlast)
          have hres := ih (recordSent t0 s)
            (by
              rw [hstep]
              exact List.Pairwise.sublist (List.filter_sublist _) hwsorted)
            (by
              intro x hx t ht
              rw [hstep] at hx
              have hx2 := List.mem_of_mem_filter hx
              rcases List.mem_append.mp hx2 with h1 | h1
              · exact hb x h1 t (List.mem_cons_of_mem t0 ht)
              · rw [List.mem_singleton] at h1
                rw [h1]
                exact hsort2.1 t ht)
            hsort2.2 hlast
          rw [hres, hstep]
          have hassoc : s.recentSendTimes ++ (t0 :: t1 :: rest2) =
              (s.recentSendTimes ++ [t0]) ++ (t1 :: rest2) := by
            simp
          rw [hassoc]
          have habsorb : ∀ l : List Nat,
              l.filter (fun a =>
                decide (last - SEC ≤ a) && decide (t0 - SEC ≤ a)) =
              l.filter (fun a => last - SEC ≤ a) := by
            intro l
            apply List.filter_congr
            intro x hx
            by_cases hcx : last - SEC ≤ x
            · have hpx : t0 - SEC ≤ x :=
                le_trans (Nat.sub_le_sub_right ht0last SEC) hcx
              simp [hcx, hpx]
            · simp [hcx]
          simp only [List.filter_append, List.filter_filter, habsorb]

/-- C6 (counterexample): the window is pruned only inside recordSent, so
at a wall-clock instant with no recent recordSent call the invariant
fails.  After a single send at time 0 and no further calls, at time
3 s the window still holds the entry 0 although it is older than
3 s - 1 s, and getCurrentRate still reports 1 although no send happened
in the trailing second. -/
theorem playbackState_window_counterexample :
    (0 ∈ (runSends [0] (initPlaybackState 0)).recentSendTimes
      ∧ (0 : Nat) < 3 * SEC - SEC)
    ∧ getCurrentRate (runSends [0] (initPlaybackState 0)) = 1 := by
  exact ⟨⟨by decide, by decide⟩, by decide⟩

/-- C6 (amended): immediately after each recordSent call of a playback
run with monotone steady-clock timestamps, the window holds no entry
older than now - 1 s, and getCurrentRate equals the number of recorded
sends whose timestamp lies in the trailing second of the latest call.
Between calls nothing prunes the window, so (see the counterexample)
the claimed invariant holds only at these instants. -/
theorem playbackState_window_spec (start : Nat) (times : List Nat)
    (last : Nat) (hsort : times.Sorted (· ≤ ·))
    (hlast : times.getLast? = some last) :
    (∀ x ∈ (runSends times (initPlaybackState start)).recentSendTimes,
        ¬ x < last - SEC)
    ∧ getCurrentRate (runSends times (initPlaybackState start)) =
        (times.filter (fun t => last - SEC ≤ t)).length := by
  have hinit : (initPlaybackState start).recentSendTimes = ([] : List Nat) :=
    rfl
  have hw := runSends_window times (initPlaybackState start)
    (by rw [hinit]; exact List.sorted_nil)
    (by rw [hinit]; intro x hx; exact absurd hx (List.not_mem_nil x))
    hsort last hlast
  rw [hinit, List.nil_append] at hw
  refine ⟨?_, ?_⟩
  · intro x hx
    rw [hw] at hx
    have hmem := (List.mem_filter.mp hx).2
    have : last - SEC ≤ x := of_decide_eq_true hmem
    exact Nat.not_lt.mpr this
  · simp only [getCurrentRate, hw]

/-- Witness for playbackState_window_spec at the send trace [0, 1]. -/
theorem playbackState_window_spec_witness :
    (∀ x ∈ (runSends [0, 1] (initPlaybackState 0)).recentSendTimes,
        ¬ x < 1 - SEC)
    ∧ getCurrentRate (runSends [0, 1] (initPlaybackState 0)) =
        (([0, 1] : List Nat).filter (fun t => 1 - SEC ≤ t)).length :=
  playbackState_window_spec 0 [0, 1] 1 (by decide) (by decide)

/- ===================================================================
   Rules engine  (src/src/apps/playback/authorities/rules_engine.h and
    src/src/apps/playback/interfaces/IPlaybackRules.h)

   addRule appends the rule and re-sorts the vector with std::sort under
   the comparator getPriority() < getPriority().  std::sort guarantees a
   sorted permutation but leaves the relative order of equivalent
   elements unspecified, so sorting is modelled as a relation.  evaluate
   threads one Decision through the sorted list, starting from a freshly
   constructed Decision (outcome CONTINUE, zero delay) on every call,
   and short-circuits on VETO or DROP.  The rule objects are opaque to
   the engine; their apply member is modelled as a function (the void*
   metadata field of Decision is not used by the engine and is omitted).
   =================================================================== -/

inductive Priority where
  | SAFETY
  | CONTROL
  | TIMING
  | CHAOS
deriving DecidableEq

/-- Numeric value of the Priority enum: SAFETY = 0 .. CHAOS = 3. -/
def Priority.val : Priority → Nat
  | Priority.SAFETY => 0
  | Priority.CONTROL => 1
  | Priority.TIMING => 2
  | Priority.CHAOS => 3

inductive Outcome where
  | CONTINUE
  | SEND_NOW
  | DROP
  | VETO
  | MODIFIED
deriving DecidableEq

/-- Source: IPlaybackRule::Decision (outcome plus accumulated delay in
microseconds; the opaque metadata pointer is not modelled). -/
structure Decision where
  outcome : Outcome
  accumulatedDelay : Int
deriving DecidableEq

/-- A rule as the engine sees it: a priority and the apply member. -/
structure Rule (Msg St : Type) where
  priority : Priority
  apply : Nat → Msg → St → Decision → Decision

/-- The std::sort contract for sortRules: some permutation of the input
that is sorted under the priority comparator.  Tie order among equal
priorities is unspecified by the C++ standard. -/
def sortSpec {α : Type} (prio : α → Priority) (input output : List α) :
    Prop :=
  output.Perm input ∧
    output.Sorted (fun a b => (prio a).val ≤ (prio b).val)

/-- Source: RulesEngine::addRule = push_back followed by sortRules. -/
def addRuleSpec {α : Type} (prio : α → Priority) (cur : List α) (r : α)
    (next : List α) : Prop :=
  sortSpec prio (cur ++ [r]) next

/-- Engine rule lists reachable by a sequence of addRule calls; the first
index lists the rules in insertion order. -/
inductive ReachableRules {α : Type} (prio : α → Priority) :
    List α → List α → Prop where
  | empty : ReachableRules prio [] []
  | step : ∀ {ins cur : List α} {r : α} {next : List α},
      ReachableRules prio ins cur → addRuleSpec prio cur r next →
      ReachableRules prio (ins ++ [r]) next

/-- C5 (counterexample): with two distinct rules of equal priority
inserted in the order 0 then 1, the engine can reach the list [1, 0]
(a valid std::sort outcome, since both compare equal), which does not
preserve the insertion order [0, 1]: std::sort is not stable, so tie
order is not guaranteed. -/
theorem rulesEngine_stability_counterexample :
    ReachableRules (fun _ : Nat => Priority.CONTROL) [0, 1] [1, 0]
    ∧ ([1, 0] : List Nat) ≠ [0, 1] := by
  constructor
  · have h1 : ReachableRules (fun _ : Nat => Priority.CONTROL) [0] [0] :=
      ReachableRules.step ReachableRules.empty
        ⟨List.Perm.refl _, List.sorted_singleton _⟩
    have hadd : addRuleSpec (fun _ : Nat => Priority.CONTROL) [0] 1 [1, 0] := by
      constructor
      · exact List.Perm.swap 0 1 []
      · exact List.sorted_cons.mpr ⟨by intro b hb; exact le_refl _,
          List.sorted_singleton _⟩
    exact ReachableRules.step h1 hadd
  · decide

/-- C5 (amended): after any sequence of addRule calls the engine holds a
permutation of the inserted rules sorted by ascending priority value
(SAFETY first, CHAOS last), and evaluate consults the list front to
back in that order; the relative order of rules with equal priority is
unspecified (std::sort is not stable), see the counterexample. -/
theorem rulesEngine_priority_order {α : Type} (prio : α → Priority)
    (ins cur : List α) (h : ReachableRules prio ins cur) :
    cur.Perm ins ∧
      cur.Sorted (fun a b => (prio a).val ≤ (prio b).val) := by
  induction h with
  | empty => exact ⟨List.Perm.refl _, List.sorted_nil⟩
  | step hreach hadd ih =>
      exact ⟨hadd.1.trans (ih.1.append (List.Perm.refl _)), hadd.2⟩

/-- Witness for rulesEngine_priority_order: one addRule call. -/
theorem rulesEngine_priority_order_witness :
    ([5] : List Nat).Perm [5]
    ∧ ([5] : List Nat).Sorted (fun a b =>
        ((fun _ : Nat => Priority.SAFETY) a).val ≤
          ((fun _ : Nat => Priority.SAFETY) b).val) :=
  rulesEngine_priority_order (fun _ : Nat => Priority.SAFETY) [5] [5]
    (ReachableRules.step ReachableRules.empty
      ⟨List.Perm.refl _, List.sorted_singleton _⟩)

/-- Source: the loop body of RulesEngine::evaluate.  Threads the decision
through the rules in list order and stops at VETO or DROP. -/
def evaluateGo {Msg St : Type} :
    List (Rule Msg St) → Nat → Msg → St → Decision → Decision
  | [], _, _, _, d => d
  | r :: rest, i, m, st, d =>
      let d2 := r.apply i m st d
      if d2.outcome = Outcome.VETO ∨ d2.outcome = Outcome.DROP then d2
      else evaluateGo rest i m st d2

/-- Source: RulesEngine::evaluate.  Constructs a fresh Decision with
outcome CONTINUE and zero accumulatedDelay, then runs the rule loop. -/
def evaluate {Msg St : Type} (rules : List (Rule Msg St)) (i : Nat)
    (m : Msg) (st : St) : Decision :=
  evaluateGo rules i m st ⟨Outcome.CONTINUE, 0⟩

/-- The replayer loop's per-message decisions: message i is evaluated by
its own evaluate call (mirrors the for loop of run()). -/
def runDecisions {Msg St : Type} (rules : List (Rule Msg St)) (st : St) :
    List Msg → Nat → List Decision
  | [], _ => []
  | m :: rest, i => evaluate rules i m st :: runDecisions rules st rest (i + 1)

/-- C9: each message's decision is computed by the rule ladder started
from the freshly constructed Decision (outcome CONTINUE, delay 0);
no outcome or accumulated delay from an earlier message's evaluation
enters a later message's evaluation. -/
theorem evaluate_fresh_decision {Msg St : Type}
    (rules : List (Rule Msg St)) (st : St) (msgs : List Msg)
    (i0 k : Nat) :
    (runDecisions rules st msgs i0)[k]? =
      msgs[k]?.map (fun m =>
        evaluateGo rules (i0 + k) m st ⟨Outcome.CONTINUE, 0⟩) := by
  induction msgs generalizing i0 k with
  | nil => simp [runDecisions]
  | cons m rest ih =>
      cases k with
      | zero => simp [runDecisions, evaluate]
      | succ k2 =>
          simp only [runDecisions, List.getElem?_cons_succ]
          rw [ih (i0 + 1) k2]
          have harith : i0 + 1 + k2 = i0 + (k2 + 1) := by omega
          rw [harith]

/- ===================================================================
   Replayer dispatch
   (src/src/apps/exchange_market_data_playback/market_data_playback.h,
    the decision switch of MarketDataPlayback::run)

   The switch handles DROP by recordDropped, VETO by recordQueued, and
   SEND_NOW, CONTINUE and MODIFIED by one shared case: sleep_for the
   accumulated delay when it is positive, then send, recording the send
   when the sender reports success.  The observable sleep/send sequence
   is modelled as an event list; the sender is a pure predicate.
   =================================================================== -/

inductive ReplayEvent (Msg : Type) where
  | sleepFor (us : Int)
  | send (m : Msg)
deriving DecidableEq

/-- Source: the decision switch in MarketDataPlayback::run for one
message, returning the emitted sleep/send events and the updated
playback state. -/
def processMessage {Msg : Type} (sender : Msg → Bool) (now : Nat)
    (d : Decision) (m : Msg) (st : PlaybackState) :
    List (ReplayEvent Msg) × PlaybackState :=
  match d.outcome with
  | Outcome.DROP => ([], recordDropped st)
  | Outcome.VETO => ([], recordQueued st)
  | Outcome.SEND_NOW | Outcome.CONTINUE | Outcome.MODIFIED =>
      ((if 0 < d.accumulatedDelay then
          [ReplayEvent.sleepFor d.accumulatedDelay] else [])
        ++ [ReplayEvent.send m],
        if sender m then recordSent now st else st)

/-- C4 (counterexample): a final decision with outcome SEND_NOW and a
positive accumulated delay makes the replayer sleep before sending;
the delay is not cleared, refuting the claim that SendNow sends
immediately with no sleep. -/
theorem replayer_sendnow_counterexample :
    (processMessage (fun _ : Nat => true) 0 ⟨Outcome.SEND_NOW, 5⟩ 0
        (initPlaybackState 0)).1 =
      [ReplayEvent.sleepFor 5, ReplayEvent.send 0]
    ∧ ([ReplayEvent.sleepFor 5, ReplayEvent.send (0 : Nat)] :
        List (ReplayEvent Nat)) ≠ [ReplayEvent.send 0] :=
  ⟨rfl, by decide⟩

/-- C4 (amended): the replayer treats SEND_NOW, CONTINUE and MODIFIED
identically: it sleeps for the accumulated delay exactly when that
delay is positive and then sends; it never clears the delay itself
(so a SEND_NOW decision is sent without sleeping only when its delay
is already non-positive, which the rules that emit SEND_NOW establish
by zeroing it); DROP records a dropped message and VETO records a
queued message, neither sending. -/
theorem replayer_dispatch_spec {Msg : Type} (sender : Msg → Bool)
    (now : Nat) (d : Decision) (m : Msg) (st : PlaybackState) :
    ((d.outcome = Outcome.SEND_NOW ∨ d.outcome = Outcome.CONTINUE ∨
        d.outcome = Outcome.MODIFIED) →
      (processMessage sender now d m st).1 =
        (if 0 < d.accumulatedDelay then
          [ReplayEvent.sleepFor d.accumulatedDelay] else [])
          ++ [ReplayEvent.send m])
    ∧ (d.outcome = Outcome.SEND_NOW → d.accumulatedDelay ≤ 0 →
        (processMessage sender now d m st).1 = [ReplayEvent.send m])
    ∧ (d.outcome = Outcome.DROP →
        processMessage sender now d m st = ([], recordDropped st))
    ∧ (d.outcome = Outcome.VETO →
        processMessage sender now d m st = ([], recordQueued st)) := by
  obtain ⟨o, delay⟩ := d
  refine ⟨?_, ?_, ?_, ?_⟩
  · intro h
    rcases h with h | h | h <;> (cases h; simp [processMessage])
  · intro h hdelay
    cases h
    simp only [processMessage]
    rw [if_neg (not_lt_of_le hdelay)]
    rfl
  · intro h
    cases h
    rfl
  · intro h
    cases h
    rfl

/-- Witness for replayer_dispatch_spec: a SEND_NOW decision with zero
delay is sent with no sleep event. -/
theorem replayer_dispatch_spec_witness :
    (processMessage (fun _ : Nat => true) 0 ⟨Outcome.SEND_NOW, 0⟩ 7
        (initPlaybackState 0)).1 = [ReplayEvent.send 7] :=
  (replayer_dispatch_spec (fun _ : Nat => true) 0 ⟨Outcome.SEND_NOW, 0⟩ 7
      (initPlaybackState 0)).2.1 rfl (by decide)

/- ===================================================================
   PinnedThread  (src/include/hft/concurrency/pinned_thread.h and the
    near-duplicate draft src/src/common/pinned_thread.h)

   Both destructor bodies are: if (_thread.joinable()) _thread.join();
   only the separate stop() member stores true to _stopFlag before
   joining.  The destructor and stop() are modelled as the sequences of
   primitive calls their bodies make, executed against a state holding
   the shared stop flag and whether the thread has been joined.
   =================================================================== -/

inductive ThreadCall where
  | setStopFlag
  | join
deriving DecidableEq

/-- Source: the body of PinnedThread::~PinnedThread: join only (the
common/pinned_thread.h draft has the identical body). -/
def pinnedThreadDtorCalls : List ThreadCall := [ThreadCall.join]

/-- Source: the body of PinnedThread::stop: store true to _stopFlag,
then join. -/
def pinnedThreadStopCalls : List ThreadCall :=
  [ThreadCall.setStopFlag, ThreadCall.join]

structure ThreadState where
  stopFlag : Bool
  joined : Bool
deriving DecidableEq

def execCall (s : ThreadState) : ThreadCall → ThreadState
  | ThreadCall.setStopFlag => { s with stopFlag := true }
  | ThreadCall.join => { s with joined := true }

def execCalls (calls : List ThreadCall) (s : ThreadState) : ThreadState :=
  calls.foldl execCall s

/-- C7 (counterexample): destroying the handle does not set the stop
signal: starting from a state with the stop flag unset, the destructor
call sequence leaves it unset (it contains no setStopFlag call), so a
worker that loops until the stop flag is set is never signalled and
the join would wait on it forever. -/
theorem pinnedThread_dtor_counterexample :
    (execCalls pinnedThreadDtorCalls ⟨false, false⟩).stopFlag = false
    ∧ ThreadCall.setStopFlag ∉ pinnedThreadDtorCalls :=
  ⟨rfl, by decide⟩

/-- C7 (amended): destruction of the handle joins the worker thread but
leaves the shared stop flag untouched; only the explicit stop() member
first sets the stop flag and then joins.  Destruction alone therefore
does not make a stop-flag-polling worker terminate. -/
theorem pinnedThread_dtor_spec (s : ThreadState) :
    (execCalls pinnedThreadDtorCalls s).joined = true
    ∧ (execCalls pinnedThreadDtorCalls s).stopFlag = s.stopFlag
    ∧ execCalls pinnedThreadStopCalls s = ⟨true, true⟩ :=
  ⟨rfl, rfl, rfl⟩

/- ===================================================================
   LatencyTracker  (src/include/hft/profiling/latency_tracker.h)

   The preallocated sample array together with the write index is
   modelled as the list of recorded samples (length = _index); _count is
   the total event counter.  getStats sorts a copy of the first
   samples_recorded samples and reads percentiles by position
   (idx = floor(p * n) clamped to n - 1); the double-valued, TSC-
   calibrated conversion toMicroseconds (division by a positive
   cycles-per-microsecond constant) is modelled over the rationals with
   the calibration constant as a parameter.
   =================================================================== -/

def MAX_SAMPLES : Nat := 1000000

structure LatencyTracker where
  samples : List Nat
  count : Nat
deriving DecidableEq

/-- Source: LatencyTracker::recordDelta: store the delta if the buffer
is not full, always bump the total count. -/
def recordDelta (t : LatencyTracker) (delta : Nat) : LatencyTracker :=
  { samples :=
      if t.samples.length < MAX_SAMPLES then t.samples ++ [delta]
      else t.samples
    count := t.count + 1 }

/-- Source: LatencyTracker::record: records the uint64 wrap-around
difference of the two timestamps. -/
def record (t : LatencyTracker) (start stop : Nat) : LatencyTracker :=
  recordDelta t ((stop + (2 ^ 64 - start % 2 ^ 64)) % 2 ^ 64)

/-- Source: LatencyTracker::Stats, with the double fields over ℚ. -/
structure Stats where
  count : Nat
  samples_recorded : Nat
  min_us : ℚ
  max_us : ℚ
  mean_us : ℚ
  median_us : ℚ
  p95_us : ℚ
  p99_us : ℚ
  p999_us : ℚ
deriving DecidableEq

/-- Source: HighResTimer::toMicroseconds: delta divided by the positive
calibrated cycles-per-microsecond constant. -/
def toMicroseconds (cyclesPerUs : ℚ) (delta : Nat) : ℚ :=
  (delta : ℚ) / cyclesPerUs

/-- Source: the percentile lambda of getStats: idx = floor(p * n),
clamped to n - 1. -/
def percentileIdx (p : ℚ) (n : Nat) : Nat :=
  min (Nat.floor (p * (n : ℚ))) (n - 1)

/-- Source: the sorted copy of the first samples_recorded samples that
getStats builds with std::sort. -/
def sortedSamples (t : LatencyTracker) : List Nat :=
  List.insertionSort (· ≤ ·)
    (t.samples.take (min t.samples.length MAX_SAMPLES))

/-- Source: LatencyTracker::getStats.  samples_recorded is
min(_index, MAX_SAMPLES); with zero recorded samples it returns the
zero-initialized Stats (with count = _count) before any indexing of the
sample buffer or division by the sample count; otherwise it sorts a
copy and fills every field by position, the mean using integer
division of the sum. -/
def getStats (cyclesPerUs : ℚ) (t : LatencyTracker) : Stats :=
  let n := min t.samples.length MAX_SAMPLES
  if n = 0 then
    ⟨t.count, 0, 0, 0, 0, 0, 0, 0, 0⟩
  else
    ⟨t.count, n,
      toMicroseconds cyclesPerUs ((sortedSamples t).getD 0 0),
      toMicroseconds cyclesPerUs ((sortedSamples t).getD (n - 1) 0),
      toMicroseconds cyclesPerUs ((sortedSamples t).sum / n),
      toMicroseconds cyclesPerUs
        ((sortedSamples t).getD (percentileIdx (1 / 2) n) 0),
      toMicroseconds cyclesPerUs
        ((sortedSamples t).getD (percentileIdx (95 / 100) n) 0),
      toMicroseconds cyclesPerUs
        ((sortedSamples t).getD (percentileIdx (99 / 100) n) 0),
      toMicroseconds cyclesPerUs
        ((sortedSamples t).getD (percentileIdx (999 / 1000) n) 0)⟩

theorem sortedSamples_length (t : LatencyTracker) :
    (sortedSamples t).length = min t.samples.length MAX_SAMPLES := by
  unfold sortedSamples
  rw [List.length_insertionSort, List.length_take]
  exact min_eq_left (min_le_left _ _)

theorem percentileIdx_mono {p q : ℚ} (n : Nat) (hpq : p ≤ q) :
    percentileIdx p n ≤ percentileIdx q n := by
  unfold percentileIdx
  exact min_le_min
    (Nat.floor_le_floor (mul_le_mul_of_nonneg_right hpq (Nat.cast_nonneg n)))
    (le_refl _)

theorem getStats_pos (c : ℚ) (t : LatencyTracker)
    (hn0 : ¬ min t.samples.length MAX_SAMPLES = 0) :
    getStats c t =
      ⟨t.count, min t.samples.length MAX_SAMPLES,
        toMicroseconds c ((sortedSamples t).getD 0 0),
        toMicroseconds c
          ((sortedSamples t).getD (min t.samples.length MAX_SAMPLES - 1) 0),
        toMicroseconds c
          ((sortedSamples t).sum / min t.samples.length MAX_SAMPLES),
        toMicroseconds c ((sortedSamples t).getD
          (percentileIdx (1 / 2) (min t.samples.length MAX_SAMPLES)) 0),
        toMicroseconds c ((sortedSamples t).getD
          (percentileIdx (95 / 100) (min t.samples.length MAX_SAMPLES)) 0),
        toMicroseconds c ((sortedSamples t).getD
          (percentileIdx (99 / 100) (min t.samples.length MAX_SAMPLES)) 0),
        toMicroseconds c ((sortedSamples t).getD
          (percentileIdx (999 / 1000) (min t.samples.length MAX_SAMPLES)) 0)⟩ := by
  rw [getStats]
  exact if_neg hn0

/-- C10: getStats on a tracker with zero recorded samples is total and
returns samples_recorded = 0 with every statistic field zero (and the
untouched total count), taking the early-return branch before any
indexing of the sample buffer or division by the sample count. -/
theorem getStats_empty (c : ℚ) (t : LatencyTracker)
    (h : t.samples = []) :
    (getStats c t).samples_recorded = 0
    ∧ (getStats c t).min_us = 0
    ∧ (getStats c t).max_us = 0
    ∧ (getStats c t).mean_us = 0
    ∧ (getStats c t).median_us = 0
    ∧ (getStats c t).p95_us = 0
    ∧ (getStats c t).p99_us = 0
    ∧ (getStats c t).p999_us = 0
    ∧ (getStats c t).count = t.count := by
  simp [getStats, h]

/-- Witness for getStats_empty at a freshly constructed tracker. -/
theorem getStats_empty_witness :
    (getStats 1 (LatencyTracker.mk [] 0)).samples_recorded = 0
    ∧ (getStats 1 (LatencyTracker.mk [] 0)).min_us = 0
    ∧ (getStats 1 (LatencyTracker.mk [] 0)).max_us = 0
    ∧ (getStats 1 (LatencyTracker.mk [] 0)).mean_us = 0
    ∧ (getStats 1 (LatencyTracker.mk [] 0)).median_us = 0
    ∧ (getStats 1 (LatencyTracker.mk [] 0)).p95_us = 0
    ∧ (getStats 1 (LatencyTracker.mk [] 0)).p99_us = 0
    ∧ (getStats 1 (LatencyTracker.mk [] 0)).p999_us = 0
    ∧ (getStats 1 (LatencyTracker.mk [] 0)).count = 0 :=
  getStats_empty 1 (LatencyTracker.mk [] 0) rfl

/-- C8: for a non-empty sample set and a positive calibration constant,
the percentile positions of getStats are ordered, so
min <= median <= p95 <= p99 <= p999 <= max. -/
theorem latency_percentile_order (c : ℚ) (t : LatencyTracker)
    (hc : 0 < c) (hne : t.samples ≠ []) :
    (getStats c t).min_us ≤ (getStats c t).median_us
    ∧ (getStats c t).median_us ≤ (getStats c t).p95_us
    ∧ (getStats c t).p95_us ≤ (getStats c t).p99_us
    ∧ (getStats c t).p99_us ≤ (getStats c t).p999_us
    ∧ (getStats c t).p999_us ≤ (getStats c t).max_us := by
  have hlenpos : 0 < t.samples.length := List.length_pos.mpr hne
  have hnpos : 0 < min t.samples.length MAX_SAMPLES :=
    lt_min hlenpos (by decide)
  have hn0 : ¬ min t.samples.length MAX_SAMPLES = 0 := by omega
  have hslen : (sortedSamples t).length = min t.samples.length MAX_SAMPLES :=
    sortedSamples_length t
  have hsorted : (sortedSamples t).Sorted (· ≤ ·) :=
    List.sorted_insertionSort _ _
  have hmono : ∀ i j : Nat, i ≤ j → j < min t.samples.length MAX_SAMPLES →
      (sortedSamples t).getD i 0 ≤ (sortedSamples t).getD j 0 := by
    intro i j hij hj
    have hj2 : j < (sortedSamples t).length := by rw [hslen]; exact hj
    have hi2 : i < (sortedSamples t).length := lt_of_le_of_lt hij hj2
    rw [List.getD_eq_getElem _ _ hi2, List.getD_eq_getElem _ _ hj2]
    have := List.Sorted.rel_get_of_le hsorted
      (show (⟨i, hi2⟩ : Fin (sortedSamples t).length) ≤ ⟨j, hj2⟩ from hij)
    simpa using this
  have hdiv : ∀ a b : Nat, a ≤ b →
      toMicroseconds c a ≤ toMicroseconds c b := by
    intro a b hab
    unfold toMicroseconds
    exact (div_le_div_iff_of_pos_right hc).mpr (Nat.cast_le.mpr hab)
  have hlastlt : min t.samples.length MAX_SAMPLES - 1 <
      min t.samples.length MAX_SAMPLES := Nat.sub_lt hnpos Nat.one_pos
  have hidxle : ∀ p : ℚ,
      percentileIdx p (min t.samples.length MAX_SAMPLES) <
        min t.samples.length MAX_SAMPLES :=
    fun p => lt_of_le_of_lt (min_le_right _ _) hlastlt
  rw [getStats_pos c t hn0]
  refine ⟨?_, ?_, ?_, ?_, ?_⟩
  · exact hdiv _ _ (hmono 0 _ (Nat.zero_le _) (hidxle _))
  · exact hdiv _ _ (hmono _ _ (percentileIdx_mono _ (by norm_num)) (hidxle _))
  · exact hdiv _ _ (hmono _ _ (percentileIdx_mono _ (by norm_num)) (hidxle _))
  · exact hdiv _ _ (hmono _ _ (percentileIdx_mono _ (by norm_num)) (hidxle _))
  · exact hdiv _ _ (hmono _ _ (min_le_right _ _) hlastlt)

/-- Witness for latency_percentile_order at a concrete three-sample
tracker with calibration constant 2. -/
theorem latency_percentile_order_witness :
    (0 : ℚ) < 2 ∧
    ((getStats 2 (LatencyTracker.mk [5, 3, 8] 3)).min_us ≤
        (getStats 2 (LatencyTracker.mk [5, 3, 8] 3)).median_us
      ∧ (getStats 2 (LatencyTracker.mk [5, 3, 8] 3)).median_us ≤
        (getStats 2 (LatencyTracker.mk [5, 3, 8] 3)).p95_us
      ∧ (getStats 2 (LatencyTracker.mk [5, 3, 8] 3)).p95_us ≤
        (getStats 2 (LatencyTracker.mk [5, 3, 8] 3)).p99_us
      ∧ (getStats 2 (LatencyTracker.mk [5, 3, 8] 3)).p99_us ≤
        (getStats 2 (LatencyTracker.mk [5, 3, 8] 3)).p999_us
      ∧ (getStats 2 (LatencyTracker.mk [5, 3, 8] 3)).p999_us ≤
        (getStats 2 (LatencyTracker.mk [5, 3, 8] 3)).max_us) :=
  ⟨by norm_num,
    latency_percentile_order 2 (LatencyTracker.mk [5, 3, 8] 3)
      (by norm_num) (by decide)⟩

end Beacon
